import Mathlib

/-!
Verification of the "verify" secret-scanning tool.

The development shallowly embeds the scanning engine of src/cli/index.js:
the finding data model, the filename/content rule catalog evaluated by
scanFile, the recursive directory walker scanForSecrets/walk, and the
report-archive view (GET /scans) of the storage service.

Modelling conventions:
- JavaScript strings are Lean Strings (a wrapped List Char); the lowercasing
  of basenames (JS .toLowerCase) is modelled by mapping Char.toLower over the
  characters, which agrees with JS on ASCII file names.
- A JS regular expression is embedded as a term of the RE type below; the
  boolean test content.match(re) is jsTest re content (existence of a match
  at any position). JS character classes are Char predicates; the /i flag on
  literal characters becomes a case-insensitive character predicate.
- The filesystem seen by one scan is an FSTree snapshot: fs.statSync throwing
  is the statError node, fs.readFileSync throwing (binary/unreadable content)
  is a file node with content none, fs.readdirSync throwing is dirUnreadable,
  and a stat-able path that is neither file nor directory is special.
- Exceptions that escape scanForSecrets (only fs.readdirSync can throw there,
  being outside every try block) are modelled with Except.
-/

/-! ### Finding data model (the issue objects pushed by src/cli/index.js) -/

inductive Category where
  | Secrets | Crypto | Cookies | Credentials | Logging | Cloud
  | Errors | Dependencies | Code | Database
deriving DecidableEq

inductive Severity where
  | Critical | High | Medium | Low
deriving DecidableEq

structure Finding where
  category : Category
  severity : Severity
  message : String
  hint : String
deriving DecidableEq

/-! ### JS string primitives used by the scanner -/

/-- JS String.prototype test "does hay start with needle" on character lists. -/
def leadMatch : List Char → List Char → Bool
  | _, [] => true
  | [], _ :: _ => false
  | c :: h, d :: n => c == d && leadMatch h n

/-- JS String.prototype.includes: needle occurs somewhere in hay. -/
def occursIn (hay needle : List Char) : Bool :=
  match hay with
  | [] => leadMatch [] needle
  | _ :: t => leadMatch hay needle || occursIn t needle

/-- JS includes on Strings. -/
def sIncludes (hay needle : String) : Bool := occursIn hay.data needle.data

/-- JS String.prototype.endsWith on Strings. -/
def sEndsWith (hay needle : String) : Bool :=
  leadMatch hay.data.reverse needle.data.reverse

/-- JS String.prototype.toLowerCase, for the ASCII basenames the scanner
lowercases (kept executable over the character list). -/
def lowerStr (s : String) : String := String.mk (s.data.map Char.toLower)

/-- Node path.posix.basename: drop trailing separators, then keep the final
segment; a path consisting only of separators (or empty) gives "". -/
def basename (p : String) : String :=
  String.mk (((p.data.reverse.dropWhile (fun c => c == '/')).takeWhile
    (fun c => !(c == '/'))).reverse)

/-- Node path.join as used by walk: joining a directory path with one
readdir entry name (entry names are nonempty and contain no separator, so
dot-segment normalization never applies on the appended component). -/
def pathJoin (p name : String) : String :=
  if p = "" then name
  else if p.data.getLast? = some '/' then p ++ name
  else p ++ "/" ++ name

/-! ### A small regular-expression engine (Brzozowski derivatives)

RE terms embed the JS regex literals of the scanner; pred carries an
arbitrary character-class predicate so that classes such as [0-9A-Z], \s,
\S, . and case-insensitive letters are expressed directly. -/

inductive RE where
  | fail
  | eps
  | pred (p : Char → Bool)
  | seq (a b : RE)
  | alt (a b : RE)
  | star (a : RE)

/-- Does the regex accept the empty string? -/
def RE.nullable : RE → Bool
  | .fail => false
  | .eps => true
  | .pred _ => false
  | .seq a b => a.nullable && b.nullable
  | .alt a b => a.nullable || b.nullable
  | .star _ => true

/-- Brzozowski derivative with respect to one character. -/
def RE.deriv : RE → Char → RE
  | .fail, _ => .fail
  | .eps, _ => .fail
  | .pred p, c => if p c then .eps else .fail
  | .seq a b, c =>
      if a.nullable then .alt (.seq (a.deriv c) b) (b.deriv c)
      else .seq (a.deriv c) b
  | .alt a b, c => .alt (a.deriv c) (b.deriv c)
  | .star a, c => .seq (a.deriv c) (.star a)

/-- Full-string match. -/
def RE.matchAll : RE → List Char → Bool
  | r, [] => r.nullable
  | r, c :: s => (r.deriv c).matchAll s

/-- Match of some leading segment of the input. -/
def RE.matchHead : RE → List Char → Bool
  | r, [] => r.nullable
  | r, c :: s => r.nullable || (r.deriv c).matchHead s

/-- Match of some segment starting at any position (the boolean meaning of
JS String.prototype.match used in a condition). -/
def RE.searchIn : RE → List Char → Bool
  | r, [] => r.nullable
  | r, c :: s => r.matchHead (c :: s) || r.searchIn s

/-- Boolean regex test on a String, as the scanner uses content.match. -/
def jsTest (r : RE) (s : String) : Bool := r.searchIn s.data

/-- One-or-more repetition (JS +). -/
def RE.plus (r : RE) : RE := .seq r (.star r)

/-- Zero-or-one (JS ?). -/
def RE.opt (r : RE) : RE := .alt r .eps

/-- Exactly-n repetition (JS braced repetition counts). -/
def RE.rep : Nat → RE → RE
  | 0, _ => .eps
  | n + 1, r => .seq r (RE.rep n r)

/-- Chain a list of regexes in sequence. -/
def seqs (l : List RE) : RE := l.foldr RE.seq .eps

/-- Case-sensitive single character. -/
def exChar (x : Char) : RE := .pred (fun c => c == x)

/-- Case-insensitive single character (the /i flag on an ASCII literal). -/
def ciChar (x : Char) : RE := .pred (fun c => c.toLower == x.toLower)

/-- Case-sensitive string literal. -/
def lit (s : String) : RE := s.data.foldr (fun c r => .seq (exChar c) r) .eps

/-- Case-insensitive string literal. -/
def litCI (s : String) : RE := s.data.foldr (fun c r => .seq (ciChar c) r) .eps

/-! Character classes appearing in the scanner's regex literals. -/

/-- JS class [0-9A-Z]. -/
def upAlnumCh (c : Char) : Bool := ('0' ≤ c && c ≤ '9') || ('A' ≤ c && c ≤ 'Z')

/-- JS class [0-9a-zA-Z]. -/
def alnumCh (c : Char) : Bool :=
  ('0' ≤ c && c ≤ '9') || ('a' ≤ c && c ≤ 'z') || ('A' ≤ c && c ≤ 'Z')

/-- JS class [A-Za-z0-9_-]. -/
def b64Ch (c : Char) : Bool := alnumCh c || c == '_' || c == '-'

/-- JS class \s (whitespace, including the Unicode space separators). -/
def jsSpace (c : Char) : Bool :=
  c == ' ' || c == '\t' || c == '\n' || c == '\r' || c == '\x0b' || c == '\x0c'
  || c == '\u00A0' || c == '\u1680' || ('\u2000' ≤ c && c ≤ '\u200A')
  || c == '\u2028' || c == '\u2029' || c == '\u202F' || c == '\u205F'
  || c == '\u3000' || c == '\uFEFF'

/-- JS class \S. -/
def nonSpace (c : Char) : Bool := !jsSpace c

/-- JS dot without the s flag: any character but a line terminator. -/
def dotCh (c : Char) : Bool :=
  !(c == '\n' || c == '\r' || c == '\u2028' || c == '\u2029')

/-- JS class ['"]. -/
def quoteCh (c : Char) : Bool := c == '\'' || c == '"'

/-! ### The content-rule regex literals of scanFile (src/cli/index.js) -/

/-- JS /AKIA[0-9A-Z]\x7b16\x7d/ -/
def reAwsKey : RE := .seq (lit "AKIA") (RE.rep 16 (.pred upAlnumCh))

/-- JS /password\s*=\s*['"].+['"]/i -/
def rePassword : RE := seqs [litCI "password", .star (.pred jsSpace), exChar '=',
  .star (.pred jsSpace), .pred quoteCh, RE.plus (.pred dotCh), .pred quoteCh]

/-- JS /api[_-]?key\s*=\s*['"].+['"]/i -/
def reApiKey : RE := seqs [litCI "api", RE.opt (.pred (fun c => c == '_' || c == '-')),
  litCI "key", .star (.pred jsSpace), exChar '=', .star (.pred jsSpace),
  .pred quoteCh, RE.plus (.pred dotCh), .pred quoteCh]

/-- JS /sk_live_[0-9a-zA-Z]\x7b24,\x7d/ -/
def reStripe : RE := seqs [lit "sk_live_", RE.rep 24 (.pred alnumCh), .star (.pred alnumCh)]

/-- JS /mongodb:\/\/\S+/i -/
def reMongo : RE := .seq (litCI "mongodb://") (RE.plus (.pred nonSpace))

/-- JS /postgres:\/\/\S+/i -/
def rePostgres : RE := .seq (litCI "postgres://") (RE.plus (.pred nonSpace))

/-- JS /eyJ[A-Za-z0-9_-]+\.[A-Za-z0-9_-]+\.[A-Za-z0-9_-]+/ -/
def reJwt : RE := seqs [lit "eyJ", RE.plus (.pred b64Ch), exChar '.',
  RE.plus (.pred b64Ch), exChar '.', RE.plus (.pred b64Ch)]

/-- JS /crypto\.createHash\(["'](md5|sha1)["']\)/i -/
def reWeakHash : RE := seqs [litCI "crypto.createHash(", .pred quoteCh,
  .alt (litCI "md5") (litCI "sha1"), .pred quoteCh, litCI ")"]

/-- JS /crypto\.createHash\(["']sha256["']\)/i -/
def reSha256 : RE := seqs [litCI "crypto.createHash(", .pred quoteCh,
  litCI "sha256", .pred quoteCh, litCI ")"]

/-- JS /res\.cookie\(/i -/
def reResCookie : RE := litCI "res.cookie("

/-- JS /(admin|root)\s*[:=]\s*(admin|password|1234)/i -/
def reDefaultCred : RE := seqs [.alt (litCI "admin") (litCI "root"),
  .star (.pred jsSpace), .pred (fun c => c == ':' || c == '='),
  .star (.pred jsSpace), .alt (litCI "admin") (.alt (litCI "password") (litCI "1234"))]

/-- JS /console\.log\(.+password/i -/
def reLogPassword : RE := seqs [litCI "console.log(", RE.plus (.pred dotCh), litCI "password"]

/-- JS /console\.log\(.+token/i -/
def reLogToken : RE := seqs [litCI "console.log(", RE.plus (.pred dotCh), litCI "token"]

/-- JS /s3:\/\/\S+/i -/
def reS3 : RE := .seq (litCI "s3://") (RE.plus (.pred nonSpace))

/-- JS /Error:/i -/
def reErrorColon : RE := litCI "Error:"

/-- JS /at\s+\S+/ -/
def reStackAt : RE := seqs [lit "at", RE.plus (.pred jsSpace), RE.plus (.pred nonSpace)]

/-! ### Filename rules (conditions on the lowercased basename, in source order) -/

def fnPred1 (lower : String) : Bool := sIncludes lower ".env"
def fnPred2 (lower : String) : Bool := sIncludes lower "id_rsa" || sEndsWith lower ".pem"
def fnPred3 (lower : String) : Bool := lower == "config.js" || lower == "config.json"
def fnPred4 (lower : String) : Bool := sIncludes lower "secret" || sIncludes lower "password"
def fnPred5 (lower : String) : Bool := sEndsWith lower ".log"

def fnFind1 (filePath : String) : Finding :=
  { category := .Secrets, severity := .Critical,
    message := "Sensitive .env file detected: " ++ filePath,
    hint := "Never commit .env files. Use environment variables or secret managers." }
def fnFind2 (filePath : String) : Finding :=
  { category := .Secrets, severity := .Critical,
    message := "Private key detected: " ++ filePath,
    hint := "Remove private keys from repos. Store them securely outside version control." }
def fnFind3 (filePath : String) : Finding :=
  { category := .Secrets, severity := .High,
    message := "Config file may contain secrets: " ++ filePath,
    hint := "Check config files for hardcoded credentials. Move sensitive values to env vars." }
def fnFind4 (filePath : String) : Finding :=
  { category := .Secrets, severity := .High,
    message := "Potential secret in filename: " ++ filePath,
    hint := "Avoid naming files with 'secret' or 'password'. It signals sensitive content." }
def fnFind5 (filePath : String) : Finding :=
  { category := .Logging, severity := .Low,
    message := "Debug log file detected: " ++ filePath,
    hint := "Logs may leak sensitive data. Avoid committing them." }

/-! ### Content rules (conditions on the decoded text, in source order) -/

def ctPred1 (content : String) : Bool := jsTest reAwsKey content
def ctPred2 (content : String) : Bool := sIncludes content "AWS_SECRET_KEY"
def ctPred3 (content : String) : Bool := jsTest rePassword content
def ctPred4 (content : String) : Bool := sIncludes content "BEGIN PRIVATE KEY"
def ctPred5 (content : String) : Bool := jsTest reApiKey content
def ctPred6 (content : String) : Bool := jsTest reStripe content
def ctPred7 (content : String) : Bool := jsTest reMongo content
def ctPred8 (content : String) : Bool := jsTest rePostgres content
def ctPred9 (content : String) : Bool := jsTest reJwt content
def ctPred10 (content : String) : Bool := jsTest reWeakHash content
def ctPred11 (content : String) : Bool := jsTest reSha256 content
def ctPred12 (content : String) : Bool :=
  jsTest reResCookie content && !sIncludes content "HttpOnly"
def ctPred13 (content : String) : Bool :=
  jsTest reResCookie content && !sIncludes content "Secure"
def ctPred14 (content : String) : Bool := jsTest reDefaultCred content
def ctPred15 (content : String) : Bool :=
  jsTest reLogPassword content || jsTest reLogToken content
def ctPred16 (content : String) : Bool :=
  jsTest reS3 content && !sIncludes content "private"
def ctPred17 (content : String) : Bool :=
  jsTest reErrorColon content && jsTest reStackAt content

def ctFind1 (filePath : String) : Finding :=
  { category := .Secrets, severity := .Critical,
    message := "AWS Access Key found in " ++ filePath,
    hint := "Rotate AWS keys and use IAM roles instead of hardcoding." }
def ctFind2 (filePath : String) : Finding :=
  { category := .Secrets, severity := .Critical,
    message := "AWS secret key reference in " ++ filePath,
    hint := "Remove AWS secrets from code. Use environment variables or secret managers." }
def ctFind3 (filePath : String) : Finding :=
  { category := .Secrets, severity := .Critical,
    message := "Hardcoded password found in " ++ filePath,
    hint := "Never hardcode passwords. Use env vars or secure vaults." }
def ctFind4 (filePath : String) : Finding :=
  { category := .Secrets, severity := .Critical,
    message := "Private key content found in " ++ filePath,
    hint := "Remove private keys from source code. Store them securely." }
def ctFind5 (filePath : String) : Finding :=
  { category := .Secrets, severity := .Critical,
    message := "API key found in " ++ filePath,
    hint := "Rotate API keys and store them outside code." }
def ctFind6 (filePath : String) : Finding :=
  { category := .Secrets, severity := .Critical,
    message := "Stripe live secret key found in " ++ filePath,
    hint := "Use test keys in dev. Never commit live keys." }
def ctFind7 (filePath : String) : Finding :=
  { category := .Secrets, severity := .High,
    message := "MongoDB connection string found in " ++ filePath,
    hint := "Move DB connection strings to env vars." }
def ctFind8 (filePath : String) : Finding :=
  { category := .Secrets, severity := .High,
    message := "Postgres connection string found in " ++ filePath,
    hint := "Store DB credentials securely outside code." }
def ctFind9 (filePath : String) : Finding :=
  { category := .Secrets, severity := .High,
    message := "JWT token found in " ++ filePath,
    hint := "Never commit JWTs. Generate them dynamically." }
def ctFind10 (filePath : String) : Finding :=
  { category := .Crypto, severity := .High,
    message := "Weak crypto algorithm (MD5/SHA1) used in " ++ filePath,
    hint := "Use bcrypt, Argon2, or SHA256+salt for secure hashing." }
def ctFind11 (filePath : String) : Finding :=
  { category := .Crypto, severity := .Medium,
    message := "Plain SHA256 used for password hashing in " ++ filePath,
    hint := "Use adaptive algorithms like bcrypt or Argon2 for password storage." }
def ctFind12 (filePath : String) : Finding :=
  { category := .Cookies, severity := .High,
    message := "Cookie set without HttpOnly flag in " ++ filePath,
    hint := "Add \x7b httpOnly: true \x7d to cookies to prevent XSS attacks." }
def ctFind13 (filePath : String) : Finding :=
  { category := .Cookies, severity := .High,
    message := "Cookie set without Secure flag in " ++ filePath,
    hint := "Add \x7b secure: true \x7d to cookies to enforce HTTPS." }
def ctFind14 (filePath : String) : Finding :=
  { category := .Credentials, severity := .Critical,
    message := "Default credential found in " ++ filePath,
    hint := "Remove default creds. Enforce strong unique passwords." }
def ctFind15 (filePath : String) : Finding :=
  { category := .Logging, severity := .Medium,
    message := "Sensitive data logged in " ++ filePath,
    hint := "Avoid logging passwords or tokens. Use masked logs." }
def ctFind16 (filePath : String) : Finding :=
  { category := .Cloud, severity := .High,
    message := "Potential public S3 bucket reference in " ++ filePath,
    hint := "Ensure S3 buckets are private and access‑controlled." }
def ctFind17 (filePath : String) : Finding :=
  { category := .Errors, severity := .Medium,
    message := "Stack trace exposure risk in " ++ filePath,
    hint := "Disable stack traces in production. Use generic error messages." }

/-! ### scanFile: the per-file scanner of src/cli/index.js

The source pushes findings onto a mutable issues array: first the five
filename checks on the lowercased basename, then, inside a try block that
swallows read failures, the seventeen content checks. A file whose bytes
cannot be read or decoded is content none, and only the filename findings
survive for it. -/

def scanFile (filePath : String) (content : Option String) : List Finding :=
  let lower := lowerStr (basename filePath)
  let issues : List Finding := []
  let issues := if fnPred1 lower then issues ++ [fnFind1 filePath] else issues
  let issues := if fnPred2 lower then issues ++ [fnFind2 filePath] else issues
  let issues := if fnPred3 lower then issues ++ [fnFind3 filePath] else issues
  let issues := if fnPred4 lower then issues ++ [fnFind4 filePath] else issues
  let issues := if fnPred5 lower then issues ++ [fnFind5 filePath] else issues
  match content with
  | none => issues
  | some content =>
    let issues := if ctPred1 content then issues ++ [ctFind1 filePath] else issues
    let issues := if ctPred2 content then issues ++ [ctFind2 filePath] else issues
    let issues := if ctPred3 content then issues ++ [ctFind3 filePath] else issues
    let issues := if ctPred4 content then issues ++ [ctFind4 filePath] else issues
    let issues := if ctPred5 content then issues ++ [ctFind5 filePath] else issues
    let issues := if ctPred6 content then issues ++ [ctFind6 filePath] else issues
    let issues := if ctPred7 content then issues ++ [ctFind7 filePath] else issues
    let issues := if ctPred8 content then issues ++ [ctFind8 filePath] else issues
    let issues := if ctPred9 content then issues ++ [ctFind9 filePath] else issues
    let issues := if ctPred10 content then issues ++ [ctFind10 filePath] else issues
    let issues := if ctPred11 content then issues ++ [ctFind11 filePath] else issues
    let issues := if ctPred12 content then issues ++ [ctFind12 filePath] else issues
    let issues := if ctPred13 content then issues ++ [ctFind13 filePath] else issues
    let issues := if ctPred14 content then issues ++ [ctFind14 filePath] else issues
    let issues := if ctPred15 content then issues ++ [ctFind15 filePath] else issues
    let issues := if ctPred16 content then issues ++ [ctFind16 filePath] else issues
    let issues := if ctPred17 content then issues ++ [ctFind17 filePath] else issues
    issues

/-! ### The rule catalog as data (the specification's declarative reading)

A rule is a predicate (applied to the lowercased basename for filename
rules, to the decoded text for content rules) together with the finding it
constructs from the scanned path. runRules collects, in catalog order, the
finding of every triggered rule. -/

structure Rule where
  pred : String → Bool
  build : String → Finding

/-- Ordered finding collection described by the spec: the findings of the
triggered rules, in catalog order, one finding per triggered rule. -/
def runRules : List Rule → String → String → List Finding
  | [], _, _ => []
  | r :: rs, input, filePath =>
    (if r.pred input then [r.build filePath] else []) ++ runRules rs input filePath

/-- The five filename rules, in the order scanFile evaluates them. -/
def filenameRules : List Rule :=
  [⟨fnPred1, fnFind1⟩, ⟨fnPred2, fnFind2⟩, ⟨fnPred3, fnFind3⟩,
   ⟨fnPred4, fnFind4⟩, ⟨fnPred5, fnFind5⟩]

/-- The seventeen content rules, in the order scanFile evaluates them. -/
def contentRules : List Rule :=
  [⟨ctPred1, ctFind1⟩, ⟨ctPred2, ctFind2⟩, ⟨ctPred3, ctFind3⟩, ⟨ctPred4, ctFind4⟩,
   ⟨ctPred5, ctFind5⟩, ⟨ctPred6, ctFind6⟩, ⟨ctPred7, ctFind7⟩, ⟨ctPred8, ctFind8⟩,
   ⟨ctPred9, ctFind9⟩, ⟨ctPred10, ctFind10⟩, ⟨ctPred11, ctFind11⟩, ⟨ctPred12, ctFind12⟩,
   ⟨ctPred13, ctFind13⟩, ⟨ctPred14, ctFind14⟩, ⟨ctPred15, ctFind15⟩, ⟨ctPred16, ctFind16⟩,
   ⟨ctPred17, ctFind17⟩]

/-! ### The filesystem snapshot and the tree walker scanForSecrets/walk

walk(currentPath) stats the path inside a try whose catch returns (so a
stat failure anywhere, the root included, is silently skipped). A file is
handed to scanFile; a directory is skipped entirely when its basename is
node_modules, .git or dist, and otherwise its readdir listing is walked in
order. fs.readdirSync sits outside every try block, so a directory whose
listing cannot be read raises an exception that aborts the whole scan;
that possibility is the error of the Except result. -/

mutual
inductive FSTree where
  /-- Regular file; content none when fs.readFileSync would throw. -/
  | file (content : Option String)
  /-- Directory with its readdir listing, in listing order. -/
  | dir (entries : FSEntries)
  /-- Directory on which fs.readdirSync throws. -/
  | dirUnreadable
  /-- Path on which fs.statSync throws. -/
  | statError
  /-- Stat-able path that is neither a regular file nor a directory. -/
  | special
inductive FSEntries where
  | nil
  | cons (name : String) (child : FSTree) (rest : FSEntries)
end

def FSEntries.append : FSEntries → FSEntries → FSEntries
  | .nil, ys => ys
  | .cons n t rest, ys => .cons n t (rest.append ys)

instance : Append FSEntries := ⟨FSEntries.append⟩

/-- Directory basenames the walker never recurses into. -/
def excludedNames : List String := ["node_modules", ".git", "dist"]

mutual
/-- One step of the walk closure of scanForSecrets at currentPath. -/
def walk (currentPath : String) : FSTree → Except Unit (List Finding)
  | .statError => .ok []
  | .file content => .ok (scanFile currentPath content)
  | .dir entries =>
    if excludedNames.contains (basename currentPath) then .ok []
    else walkEntries currentPath entries
  | .dirUnreadable =>
    if excludedNames.contains (basename currentPath) then .ok []
    else .error ()
  | .special => .ok []
/-- The for-loop of walk over a readdir listing. -/
def walkEntries (currentPath : String) : FSEntries → Except Unit (List Finding)
  | .nil => .ok []
  | .cons name child rest => do
    let found ← walk (pathJoin currentPath name) child
    let more ← walkEntries currentPath rest
    pure (found ++ more)
end

/-- scanForSecrets(targetPath), run against the snapshot the filesystem
presents during the scan. -/
def scanForSecrets (targetPath : String) (fsys : FSTree) : Except Unit (List Finding) :=
  walk targetPath fsys

/-- Sample snapshot: a root with an excluded node_modules subtree holding a
file that would otherwise trigger rules, next to an ordinary file. -/
def sampleTree : FSTree :=
  .dir (.cons "node_modules"
          (.dir (.cons "inner.env" (.file (some "AWS_SECRET_KEY=zzz")) .nil))
          (.cons "b.env" (.file (some "hello")) .nil))

/-! ### Exclusion pruning and listing-name wellformedness (for the C3 claim)

pruneEntries deletes from a snapshot every directory entry the walker
refuses to recurse into (a directory-like entry whose name is in the
exclusion set). validTree states the obvious wellformedness of readdir
listings: every entry name is nonempty and contains no path separator. -/

def FSTree.isDirNode : FSTree → Bool
  | .dir _ => true
  | .dirUnreadable => true
  | _ => false

mutual
def prune : FSTree → FSTree
  | .dir entries => .dir (pruneEntries entries)
  | t => t
def pruneEntries : FSEntries → FSEntries
  | .nil => .nil
  | .cons n t rest =>
    if t.isDirNode && excludedNames.contains n then pruneEntries rest
    else .cons n (prune t) (pruneEntries rest)
end

/-- Wellformedness of one readdir entry name. -/
def validName (n : String) : Bool := n != "" && !(n.data.contains '/')

mutual
def validTree : FSTree → Bool
  | .dir entries => validEntries entries
  | _ => true
def validEntries : FSEntries → Bool
  | .nil => true
  | .cons n t rest => validName n && validTree t && validEntries rest
end

/-! ### The report archive view: GET /scans of the storage service

The handler flattens every repo's recorded scans into one list (outer loop
over repos, inner loop over that repo's scans, in stored order) and sorts
it by the recorded timestamp, newest first, with the comparator
(a, b) => new Date(b.scannedAt) - new Date(a.scannedAt). Timestamps are
the parsed time values of the stored ISO strings. -/

structure ScanRecord where
  issues : List Finding
  scannedAt : Int

structure Repo where
  repoName : String
  scans : List ScanRecord

structure ScanView where
  repoName : String
  fileIssues : List Finding
  scannedAt : Int

/-- The allScans array the handler accumulates before sorting. -/
def allScansOf (repos : List Repo) : List ScanView :=
  repos.flatMap fun r => r.scans.map fun s =>
    { repoName := r.repoName, fileIssues := s.issues, scannedAt := s.scannedAt }

/-- The response of GET /scans: allScans sorted newest first. -/
def getScansHandler (repos : List Repo) : List ScanView :=
  (allScansOf repos).mergeSort fun a b => b.scannedAt ≤ a.scannedAt

/-! ### Length measures and star-freedom of regexes (for the C7 claim) -/

/-- Shortest length of a string the regex can match. -/
def RE.minL : RE → Nat
  | .fail => 0
  | .eps => 0
  | .pred _ => 1
  | .seq a b => a.minL + b.minL
  | .alt a b => min a.minL b.minL
  | .star _ => 0

/-- Longest length of a matched string, meaningful for star-free regexes. -/
def RE.maxL : RE → Nat
  | .fail => 0
  | .eps => 0
  | .pred _ => 1
  | .seq a b => a.maxL + b.maxL
  | .alt a b => max a.maxL b.maxL
  | .star _ => 0

def RE.starFree : RE → Bool
  | .fail => true
  | .eps => true
  | .pred _ => true
  | .seq a b => a.starFree && b.starFree
  | .alt a b => a.starFree && b.starFree
  | .star _ => false

/-- Language semantics of the regex embedding: RMatch r s means the regex r
matches exactly the character list s. -/
inductive RMatch : RE → List Char → Prop where
  | eps : RMatch .eps []
  | pred {p : Char → Bool} {c : Char} (h : p c = true) : RMatch (.pred p) [c]
  | seq {a b : RE} {s t : List Char} (ha : RMatch a s) (hb : RMatch b t) :
      RMatch (.seq a b) (s ++ t)
  | altL {a b : RE} {s : List Char} (h : RMatch a s) : RMatch (.alt a b) s
  | altR {a b : RE} {s : List Char} (h : RMatch b s) : RMatch (.alt a b) s
  | starNil {a : RE} : RMatch (.star a) []
  | starCons {a : RE} {s t : List Char} (h : RMatch a s) (hrest : RMatch (.star a) t) :
      RMatch (.star a) (s ++ t)

/-! ### Engine lemmas -/

theorem nullable_rmatch : ∀ {r : RE}, r.nullable = true → RMatch r []
  | .eps, _ => .eps
  | .seq a b, h => by
    simp only [RE.nullable, Bool.and_eq_true] at h
    exact RMatch.seq (nullable_rmatch h.1) (nullable_rmatch h.2)
  | .alt a b, h => by
    simp only [RE.nullable, Bool.or_eq_true] at h
    rcases h with h | h
    · exact .altL (nullable_rmatch h)
    · exact .altR (nullable_rmatch h)
  | .star _, _ => .starNil

theorem deriv_rmatch : ∀ {r : RE} {c : Char} {s : List Char},
    RMatch (r.deriv c) s → RMatch r (c :: s)
  | .pred p, c, s, h => by
    unfold RE.deriv at h
    split at h
    · cases h; exact .pred (by assumption)
    · cases h
  | .seq a b, c, s, h => by
    unfold RE.deriv at h
    split at h
    case isTrue hn =>
      cases h with
      | altL h =>
        cases h with
        | seq hu hv => exact RMatch.seq (deriv_rmatch hu) hv
      | altR h =>
        have := RMatch.seq (nullable_rmatch hn) (deriv_rmatch h)
        simpa using this
    case isFalse hn =>
      cases h with
      | seq hu hv => exact RMatch.seq (deriv_rmatch hu) hv
  | .alt a b, c, s, h => by
    cases h with
    | altL h => exact .altL (deriv_rmatch h)
    | altR h => exact .altR (deriv_rmatch h)
  | .star a, c, s, h => by
    cases h with
    | seq hu hv => exact RMatch.starCons (deriv_rmatch hu) hv

/-- Soundness of the full matcher with respect to the language semantics. -/
theorem matchAll_rmatch : ∀ {s : List Char} {r : RE}, r.matchAll s = true → RMatch r s
  | [], r, h => nullable_rmatch h
  | _ :: _, r, h => deriv_rmatch (matchAll_rmatch h)

theorem matchHead_of_nullable {r : RE} (h : r.nullable = true) :
    ∀ t : List Char, r.matchHead t = true := by
  intro t
  cases t <;> simp [RE.matchHead, h]

theorem matchHead_of_matchAll : ∀ {s : List Char} {r : RE} (t : List Char),
    r.matchAll s = true → r.matchHead (s ++ t) = true
  | [], r, t, h => matchHead_of_nullable h t
  | c :: s, r, t, h => by
    have ih := matchHead_of_matchAll (s := s) (r := r.deriv c) t h
    simp [RE.matchHead, ih]

theorem searchIn_of_matchHead {r : RE} {s : List Char} (h : r.matchHead s = true) :
    r.searchIn s = true := by
  cases s with
  | nil => exact h
  | cons c t => simp [RE.searchIn, h]

theorem searchIn_append_left {r : RE} {s : List Char} :
    ∀ pre : List Char, r.searchIn s = true → r.searchIn (pre ++ s) = true
  | [], h => h
  | c :: pre, h => by simp [RE.searchIn, searchIn_append_left pre h]

/-- A regex that fully matches a segment of the input is found by searchIn. -/
theorem searchIn_of_parts {r : RE} {m : List Char} (pre suf : List Char)
    (h : r.matchAll m = true) : r.searchIn (pre ++ (m ++ suf)) = true :=
  searchIn_append_left pre (searchIn_of_matchHead (matchHead_of_matchAll suf h))

theorem rmatch_minL {r : RE} {s : List Char} (h : RMatch r s) : r.minL ≤ s.length := by
  induction h with
  | eps => simp [RE.minL]
  | pred _ => simp [RE.minL]
  | seq _ _ iha ihb => simp only [RE.minL, List.length_append]; omega
  | altL _ ih => simp only [RE.minL]; omega
  | altR _ ih => simp only [RE.minL]; omega
  | starNil => simp [RE.minL]
  | starCons _ _ ih ihrest => simp [RE.minL]

theorem rmatch_maxL {r : RE} {s : List Char} (h : RMatch r s)
    (hsf : r.starFree = true) : s.length ≤ r.maxL := by
  induction h with
  | eps => simp [RE.maxL]
  | pred _ => simp [RE.maxL]
  | seq _ _ iha ihb =>
    simp only [RE.starFree, Bool.and_eq_true] at hsf
    simp only [RE.maxL, List.length_append]
    have := iha hsf.1
    have := ihb hsf.2
    omega
  | altL _ ih =>
    simp only [RE.starFree, Bool.and_eq_true] at hsf
    simp only [RE.maxL]
    have := ih hsf.1
    omega
  | altR _ ih =>
    simp only [RE.starFree, Bool.and_eq_true] at hsf
    simp only [RE.maxL]
    have := ih hsf.2
    omega
  | starNil => simp [RE.starFree] at hsf
  | starCons _ _ _ _ => simp [RE.starFree] at hsf

/-! ### String and list helper lemmas -/

theorem leadMatch_refl : ∀ l : List Char, leadMatch l l = true
  | [] => rfl
  | c :: t => by simp [leadMatch, leadMatch_refl t]

theorem occursIn_append_right : ∀ (a b : List Char), occursIn (a ++ b) b = true
  | [], [] => rfl
  | [], c :: t => by
    show occursIn (c :: t) (c :: t) = true
    simp [occursIn, leadMatch_refl]
  | x :: a, b => by
    simp [occursIn, occursIn_append_right a b]

/-- A string obtained by appending needle on the right contains the needle
in the JS includes sense. -/
theorem sIncludes_append_right (a b : String) : sIncludes (a ++ b) b = true := by
  simp only [sIncludes, String.data_append]
  exact occursIn_append_right a.data b.data

theorem takeWhile_append_all {p : Char → Bool} :
    ∀ (a b : List Char), (∀ c ∈ a, p c = true) →
      (∀ c t, b = c :: t → p c = false) → (a ++ b).takeWhile p = a
  | [], [], _, _ => rfl
  | [], c :: t, _, hb => by simp [List.takeWhile_cons, hb c t rfl]
  | x :: a, b, ha, hb => by
    have hx : p x = true := ha x (by simp)
    simp only [List.cons_append, List.takeWhile_cons, hx, if_true]
    rw [takeWhile_append_all a b (fun c hc => ha c (by simp [hc])) hb]

/-- Node basename of a path whose final segment is a nonempty separator-free
name appended after either nothing or a separator-final directory path. -/
theorem basename_append_nonslash (pre n : String)
    (hne : n.data ≠ []) (hns : ∀ c ∈ n.data, (c == '/') = false)
    (hpre : pre = "" ∨ pre.data.getLast? = some '/') :
    basename (pre ++ n) = n := by
  unfold basename
  obtain ⟨c, nt, hnr⟩ := List.exists_cons_of_ne_nil
    (show n.data.reverse ≠ [] by simpa using hne)
  have hmemrev : ∀ x ∈ n.data.reverse, (x == '/') = false := by
    intro x hx
    exact hns x (List.mem_reverse.mp hx)
  have hc : (c == '/') = false := hmemrev c (by simp [hnr])
  have hdata : (pre ++ n).data.reverse = c :: (nt ++ pre.data.reverse) := by
    simp [String.data_append, List.reverse_append, hnr]
  rw [hdata]
  rw [List.dropWhile_cons_of_neg (by simp [hc])]
  have htail : ∀ x ∈ nt, (!(x == '/')) = true := by
    intro x hx
    simp [hmemrev x (by simp [hnr, hx])]
  have hhead : ∀ x t, pre.data.reverse = x :: t → (!(x == '/')) = false := by
    intro x t hxt
    rcases hpre with h | h
    · rw [show pre = "" from h] at hxt
      simp at hxt
    · have : pre.data.reverse.head? = some '/' := by simp [h]
      rw [hxt] at this
      simp at this
      simp [this]
  rw [List.takeWhile_cons_of_pos (by simp [hc])]
  rw [takeWhile_append_all nt pre.data.reverse htail hhead]
  have : (c :: nt).reverse = n.data := by
    rw [← hnr, List.reverse_reverse]
  rw [this]

/-- Joining a directory path with a wellformed readdir entry name gives a
path whose basename is that name. -/
theorem basename_pathJoin (p n : String) (h : validName n = true) :
    basename (pathJoin p n) = n := by
  have hne : n.data ≠ [] := by
    intro hd
    have hn : n = "" := by
      cases n with
      | mk d =>
        simp only at hd
        rw [hd]
    rw [hn] at h
    simp [validName] at h
  have hns : ∀ c ∈ n.data, (c == '/') = false := by
    simp only [validName, Bool.and_eq_true, bne_iff_ne, ne_eq,
      Bool.not_eq_true'] at h
    intro c hc
    have h2 := h.2
    rcases hbe : (c == '/') with _ | _
    · rfl
    · exfalso
      have hc' : c = '/' := by simpa using hbe
      subst hc'
      rw [List.contains_eq_any_beq] at h2
      simp at h2
      exact (h2 '/' hc) rfl
  unfold pathJoin
  split
  case isTrue hp =>
    subst hp
    exact basename_append_nonslash "" n hne hns (Or.inl rfl)
  split
  case isTrue hp hsl => exact basename_append_nonslash p n hne hns (Or.inr hsl)
  case isFalse hp hsl =>
    have : p ++ "/" ++ n = (p ++ "/") ++ n := rfl
    rw [this]
    refine basename_append_nonslash (p ++ "/") n hne hns (Or.inr ?_)
    show ((p ++ "/").data).getLast? = some '/'
    rw [String.data_append]
    exact List.getLast?_concat _

/-! ### scanFile versus the declarative rule catalog -/

theorem push_ite (c : Bool) (xs ys : List Finding) :
    (if c then xs ++ ys else xs) = xs ++ (if c then ys else []) := by
  cases c <;> simp

/-- The accumulator form of scanFile equals the catalog form: the findings
of the triggered filename rules in catalog order, then (when the content was
readable) the findings of the triggered content rules in catalog order. -/
theorem scanFile_eq (filePath : String) (content : Option String) :
    scanFile filePath content =
      runRules filenameRules (lowerStr (basename filePath)) filePath ++
        (match content with
         | none => []
         | some c => runRules contentRules c filePath) := by
  cases content
  all_goals
    simp only [scanFile, push_ite]
    simp [runRules, filenameRules, contentRules, List.append_assoc]

/-- Every finding collected by runRules is built by a rule of the list. -/
theorem mem_runRules {f : Finding} :
    ∀ {rs : List Rule} {input filePath : String},
      f ∈ runRules rs input filePath → ∃ r ∈ rs, f = r.build filePath
  | [], _, _, h => by simp [runRules] at h
  | r :: rs, input, filePath, h => by
    rw [runRules] at h
    rcases List.mem_append.mp h with h | h
    · refine ⟨r, by simp, ?_⟩
      rcases hc : r.pred input with _ | _ <;> rw [hc] at h <;> simp at h
      exact h
    · obtain ⟨r', hr', he⟩ := mem_runRules h
      exact ⟨r', by simp [hr'], he⟩

/-- A triggered rule of the list contributes its finding to runRules. -/
theorem build_mem_runRules {r : Rule} :
    ∀ {rs : List Rule} {input filePath : String},
      r ∈ rs → r.pred input = true → r.build filePath ∈ runRules rs input filePath
  | [], _, _, hm, _ => by simp at hm
  | r' :: rs, input, filePath, hm, hp => by
    rw [runRules]
    rcases List.mem_cons.mp hm with h | h
    · subst h
      rw [hp]
      simp
    · exact List.mem_append_right _ (build_mem_runRules h hp)

/-! ### Walker helper lemmas -/

@[simp] theorem FSEntries.nil_append (ys : FSEntries) :
    (FSEntries.nil ++ ys) = ys := rfl

@[simp] theorem FSEntries.cons_append (n : String) (t : FSTree) (rest ys : FSEntries) :
    (FSEntries.cons n t rest ++ ys) = .cons n t (rest ++ ys) := rfl

/-- List-style induction for readdir listings (the tree components are
opaque). -/
@[induction_eliminator] theorem FSEntries.inductionOn {motive : FSEntries → Prop}
    (nil : motive .nil)
    (cons : ∀ (n : String) (t : FSTree) (rest : FSEntries),
      motive rest → motive (.cons n t rest)) :
    ∀ l : FSEntries, motive l
  | .nil => nil
  | .cons n t rest => cons n t rest (FSEntries.inductionOn nil cons rest)

/-- Walking a directory-like entry whose name is excluded yields nothing:
the walker returns before reading the directory. -/
theorem walk_excluded_dir (p n : String) (t : FSTree)
    (hdir : t.isDirNode = true) (hn : validName n = true)
    (hex : excludedNames.contains n = true) :
    walk (pathJoin p n) t = .ok [] := by
  have hmem : n ∈ excludedNames := by simpa using hex
  cases t with
  | dir entries => simp [walk, basename_pathJoin p n hn, hmem]
  | dirUnreadable => simp [walk, basename_pathJoin p n hn, hmem]
  | file c => simp [FSTree.isDirNode] at hdir
  | statError => simp [FSTree.isDirNode] at hdir
  | special => simp [FSTree.isDirNode] at hdir

mutual
/-- Deleting the subtrees the walker refuses to enter does not change the
scan result. -/
theorem walk_prune (p : String) (t : FSTree) (h : validTree t = true) :
    walk p t = walk p (prune t) := by
  cases t with
  | dir entries =>
    rw [show prune (.dir entries) = .dir (pruneEntries entries) from rfl]
    rw [walk, walk]
    split
    · rfl
    · exact walkEntries_prune p entries (by simpa [validTree] using h)
  | file c => rfl
  | dirUnreadable => rfl
  | statError => rfl
  | special => rfl
theorem walkEntries_prune (p : String) (l : FSEntries) (h : validEntries l = true) :
    walkEntries p l = walkEntries p (pruneEntries l) := by
  cases l with
  | nil => rfl
  | cons n t rest =>
    simp only [validEntries, Bool.and_eq_true] at h
    obtain ⟨⟨hn, ht⟩, hrest⟩ := h
    rw [pruneEntries]
    split
    case isTrue hcond =>
      simp only [Bool.and_eq_true] at hcond
      rw [walkEntries, walk_excluded_dir p n t hcond.1 hn hcond.2]
      rw [← walkEntries_prune p rest hrest]
      cases hw : walkEntries p rest <;> rfl
    case isFalse hcond =>
      rw [walkEntries, walkEntries]
      rw [← walk_prune (pathJoin p n) t ht, ← walkEntries_prune p rest hrest]
end

/-- Walking a listing entry whose path stats away (statError) contributes
nothing and the walk continues with the rest of the listing. -/
theorem walkEntries_statError (p n : String) (post : FSEntries) :
    walkEntries p (.cons n .statError post) = walkEntries p post := by
  rw [walkEntries]
  cases hw : walkEntries p post <;> rfl

theorem walkEntries_drop_statError (p n : String) (post : FSEntries) :
    ∀ pre : FSEntries,
      walkEntries p (pre ++ .cons n .statError post) = walkEntries p (pre ++ post) := by
  intro pre
  induction pre with
  | nil => simpa using walkEntries_statError p n post
  | cons a t rest ih =>
    rw [FSEntries.cons_append, FSEntries.cons_append, walkEntries, walkEntries]
    simp only [ih]

/-! ### The claims -/

/-- C1, counterexample: the claim says a scan whose root path cannot be
stat-ed reports a caller-visible error rather than silently returning the
empty finding sequence; but walk wraps fs.statSync in a try whose catch
returns at every level, the root included, so scanForSecrets on a root
whose stat fails returns ok [] — no error, an empty sequence. -/
theorem c1_counterexample :
    scanForSecrets "missing" FSTree.statError = Except.ok [] := rfl

/-- C1, amended: a stat failure on the root path does not surface a
caller-visible error: the scan silently returns the empty finding
sequence; and a stat failure or a content-read failure on any non-root
path likewise never aborts the scan — a statError listing entry is skipped
with traversal continuing, and a file with unreadable content is scanned
without error. -/
theorem c1_stat_failure_silent (root p n fp : String) (pre post : FSEntries) :
    scanForSecrets root .statError = .ok [] ∧
    walkEntries p (pre ++ .cons n .statError post) = walkEntries p (pre ++ post) ∧
    walk fp (.file none) = .ok (scanFile fp none) :=
  ⟨rfl, walkEntries_drop_statError p n post pre, rfl⟩

/-- C2: for every regular file the scanner returns exactly the findings of
the triggered filename rules in catalog order (rules 1-5) followed by the
findings of the triggered content rules in catalog order (rules 1-17);
the runRules form makes each rule contribute its one finding when
triggered and nothing otherwise. -/
theorem c2_scanFile_catalog_order (filePath : String) (content : Option String) :
    scanFile filePath content =
      runRules filenameRules (lowerStr (basename filePath)) filePath ++
        (match content with
         | none => []
         | some c => runRules contentRules c filePath) :=
  scanFile_eq filePath content

/-- C3: traversal never recurses into a directory whose basename is exactly
node_modules, .git or dist, so no file inside such a directory contributes
a finding: deleting every such directory entry from the snapshot (prune)
leaves the scan result unchanged. -/
theorem c3_excluded_never_scanned (p : String) (t : FSTree) (h : validTree t = true) :
    scanForSecrets p t = scanForSecrets p (prune t) :=
  walk_prune p t h

theorem c3_witness :
    validTree sampleTree = true ∧
    scanForSecrets "repo" sampleTree = scanForSecrets "repo" (prune sampleTree) :=
  ⟨by decide, c3_excluded_never_scanned "repo" sampleTree (by decide)⟩

/-- C4: a file whose content cannot be read or decoded yields no
content-rule findings but all triggered filename-rule findings, scanning
it never raises (walk returns ok on every file node), and traversal of the
remaining listing continues. -/
theorem c4_unreadable_content (fp p n : String) (c : Option String) (rest : FSEntries) :
    scanFile fp none = runRules filenameRules (lowerStr (basename fp)) fp ∧
    walk p (.file c) = .ok (scanFile p c) ∧
    walkEntries p (.cons n (.file none) rest) =
      Except.map (fun l => scanFile (pathJoin p n) none ++ l) (walkEntries p rest) := by
  refine ⟨?_, rfl, ?_⟩
  · simpa using scanFile_eq fp none
  · rw [walkEntries]
    cases hw : walkEntries p rest <;> rfl

/-- C10: when the root path itself is a directory whose basename is in the
exclusion set, the scan returns the empty finding sequence regardless of
the directory's contents. -/
theorem c10_excluded_root (p : String) (entries : FSEntries)
    (h : excludedNames.contains (basename p) = true) :
    scanForSecrets p (.dir entries) = .ok [] := by
  have hmem : basename p ∈ excludedNames := by simpa using h
  simp [scanForSecrets, walk, hmem]

theorem c10_witness :
    excludedNames.contains (basename "node_modules") = true ∧
    scanForSecrets "node_modules"
      (.dir (.cons "a.env" (.file (some "AWS_SECRET_KEY=zzz")) .nil)) = .ok [] :=
  ⟨by decide, c10_excluded_root _ _ (by decide)⟩

theorem filter_if_single (P : Finding → Bool) (c : Bool) (f : Finding) :
    List.filter P (if c then [f] else []) = if c && P f then [f] else [] := by
  cases c
  · simp
  · cases hq : P f <;> simp [List.filter, hq]

/-- C5: a file whose text matches the cookie-setting call pattern and
contains HttpOnly but not Secure yields exactly one Cookies finding, the
Secure-missing finding of rule 13 (and not rule 12); and the two rules are
independent, so a text with the cookie call and neither flag yields both,
in catalog order. -/
theorem c5_cookie_rules (fp c c' : String)
    (h1 : jsTest reResCookie c = true) (h2 : sIncludes c "HttpOnly" = true)
    (h3 : sIncludes c "Secure" = false)
    (h1' : jsTest reResCookie c' = true) (h2' : sIncludes c' "HttpOnly" = false)
    (h3' : sIncludes c' "Secure" = false) :
    (scanFile fp (some c)).filter (fun f => f.category == Category.Cookies)
      = [ctFind13 fp] ∧
    (scanFile fp (some c')).filter (fun f => f.category == Category.Cookies)
      = [ctFind12 fp, ctFind13 fp] := by
  have e1 : ((fnFind1 fp).category == Category.Cookies) = false := rfl
  have e2 : ((fnFind2 fp).category == Category.Cookies) = false := rfl
  have e3 : ((fnFind3 fp).category == Category.Cookies) = false := rfl
  have e4 : ((fnFind4 fp).category == Category.Cookies) = false := rfl
  have e5 : ((fnFind5 fp).category == Category.Cookies) = false := rfl
  have f1 : ((ctFind1 fp).category == Category.Cookies) = false := rfl
  have f2 : ((ctFind2 fp).category == Category.Cookies) = false := rfl
  have f3 : ((ctFind3 fp).category == Category.Cookies) = false := rfl
  have f4 : ((ctFind4 fp).category == Category.Cookies) = false := rfl
  have f5 : ((ctFind5 fp).category == Category.Cookies) = false := rfl
  have f6 : ((ctFind6 fp).category == Category.Cookies) = false := rfl
  have f7 : ((ctFind7 fp).category == Category.Cookies) = false := rfl
  have f8 : ((ctFind8 fp).category == Category.Cookies) = false := rfl
  have f9 : ((ctFind9 fp).category == Category.Cookies) = false := rfl
  have f10 : ((ctFind10 fp).category == Category.Cookies) = false := rfl
  have f11 : ((ctFind11 fp).category == Category.Cookies) = false := rfl
  have f12 : ((ctFind12 fp).category == Category.Cookies) = true := rfl
  have f13 : ((ctFind13 fp).category == Category.Cookies) = true := rfl
  have f14 : ((ctFind14 fp).category == Category.Cookies) = false := rfl
  have f15 : ((ctFind15 fp).category == Category.Cookies) = false := rfl
  have f16 : ((ctFind16 fp).category == Category.Cookies) = false := rfl
  have f17 : ((ctFind17 fp).category == Category.Cookies) = false := rfl
  constructor <;>
  · rw [scanFile_eq]
    simp [runRules, filenameRules, contentRules, filter_if_single,
      ctPred12, ctPred13, h1, h2, h3, h1', h2', h3',
      e1, e2, e3, e4, e5, f1, f2, f3, f4, f5, f6, f7, f8, f9, f10, f11,
      f12, f13, f14, f15, f16, f17]

theorem c5_witness :
    (scanFile "app.js" (some "res.cookie(x); HttpOnly")).filter
        (fun f => f.category == Category.Cookies) = [ctFind13 "app.js"] ∧
    (scanFile "app.js" (some "res.cookie(x)")).filter
        (fun f => f.category == Category.Cookies)
      = [ctFind12 "app.js", ctFind13 "app.js"] :=
  c5_cookie_rules "app.js" _ _ (by decide) (by decide) (by decide)
    (by decide) (by decide) (by decide)

/-- C6: any file whose decoded text contains the literal
password = "hunter2" triggers the hardcoded-password content rule (rule 3)
and yields its Secrets/Critical finding, while the quote-free text
password=hunter2 does not trigger that rule. -/
theorem c6_hardcoded_password (fp c : String) (pre suf : List Char)
    (h : c.data = pre ++ (("password = \"hunter2\"" : String).data ++ suf)) :
    ctFind3 fp ∈ scanFile fp (some c) ∧
    (ctFind3 fp).category = Category.Secrets ∧
    (ctFind3 fp).severity = Severity.Critical ∧
    ctPred3 "password=hunter2" = false := by
  refine ⟨?_, rfl, rfl, by decide⟩
  have hm : rePassword.matchAll (("password = \"hunter2\"" : String).data) = true := by
    decide
  have hp : ctPred3 c = true := by
    unfold ctPred3 jsTest
    rw [h]
    exact searchIn_of_parts pre suf hm
  rw [scanFile_eq]
  exact List.mem_append_right _
    (build_mem_runRules (r := ⟨ctPred3, ctFind3⟩) (by simp [contentRules]) hp)

theorem c6_witness :
    ("xx password = \"hunter2\" yy" : String).data =
      ("xx " : String).data ++ (("password = \"hunter2\"" : String).data ++
        (" yy" : String).data) ∧
    (ctFind3 "f.js" ∈ scanFile "f.js" (some "xx password = \"hunter2\" yy") ∧
     (ctFind3 "f.js").category = Category.Secrets ∧
     (ctFind3 "f.js").severity = Severity.Critical ∧
     ctPred3 "password=hunter2" = false) :=
  ⟨by decide,
   c6_hardcoded_password "f.js" _ ("xx " : String).data (" yy" : String).data (by decide)⟩

/-- C7: the weak-crypto rule pattern (rule 10, md5/sha1) and the
plain-sha256 rule pattern (rule 11) are mutually exclusive on any single
occurrence: no string can be a full match of both regexes, because a full
match of rule 10 has length at most 25 while one of rule 11 has length 27. -/
theorem c7_weak_hash_exclusive (s : String)
    (h : RE.matchAll reWeakHash s.data = true) :
    RE.matchAll reSha256 s.data = false := by
  cases hs : RE.matchAll reSha256 s.data
  · rfl
  · exfalso
    have h10 := rmatch_maxL (matchAll_rmatch h) (by decide)
    have h11 := rmatch_minL (matchAll_rmatch hs)
    rw [show reWeakHash.maxL = 25 from by decide] at h10
    rw [show reSha256.minL = 27 from by decide] at h11
    omega

theorem c7_witness :
    RE.matchAll reWeakHash ("crypto.createHash(\"md5\")" : String).data = true ∧
    RE.matchAll reSha256 ("crypto.createHash(\"md5\")" : String).data = false :=
  ⟨by decide, c7_weak_hash_exclusive _ (by decide)⟩

/-- C8: every finding scanFile produces embeds the scanned file's path in
its message, and equals the finding its triggering rule builds from that
path, so category, severity and hint are fully determined by the rule. -/
theorem c8_finding_wellformed (fp : String) (c : Option String) (f : Finding)
    (hf : f ∈ scanFile fp c) :
    sIncludes f.message fp = true ∧
    ∃ r ∈ filenameRules ++ contentRules, f = r.build fp := by
  rw [scanFile_eq] at hf
  have hr : ∃ r ∈ filenameRules ++ contentRules, f = r.build fp := by
    rcases List.mem_append.mp hf with h | h
    · obtain ⟨r, hr, he⟩ := mem_runRules h
      exact ⟨r, List.mem_append_left _ hr, he⟩
    · cases c with
      | none => simp at h
      | some t =>
        obtain ⟨r, hr, he⟩ := mem_runRules h
        exact ⟨r, List.mem_append_right _ hr, he⟩
  refine ⟨?_, hr⟩
  obtain ⟨r, hr', he⟩ := hr
  subst he
  simp only [filenameRules, contentRules, List.cons_append, List.nil_append,
    List.mem_cons, List.not_mem_nil, or_false] at hr'
  rcases hr' with rfl | rfl | rfl | rfl | rfl | rfl | rfl | rfl | rfl | rfl | rfl |
    rfl | rfl | rfl | rfl | rfl | rfl | rfl | rfl | rfl | rfl | rfl <;>
    exact sIncludes_append_right _ _

theorem c8_witness :
    fnFind1 "a.env" ∈ scanFile "a.env" none ∧
    (sIncludes (fnFind1 "a.env").message "a.env" = true ∧
     ∃ r ∈ filenameRules ++ contentRules, fnFind1 "a.env" = r.build "a.env") :=
  ⟨by decide, c8_finding_wellformed "a.env" none _ (by decide)⟩

/-- C9: the report-archive view returns the flattened list of all recorded
scans (every stored repo's recorded scans), reordered into descending
order of recorded timestamp: the response is a permutation of the
flattened list that is pairwise sorted newest first. -/
theorem c9_scans_sorted_desc (repos : List Repo) :
    (getScansHandler repos).Perm (allScansOf repos) ∧
    (getScansHandler repos).Pairwise (fun a b => b.scannedAt ≤ a.scannedAt) := by
  constructor
  · exact List.mergeSort_perm (allScansOf repos) _
  · have h : (getScansHandler repos).Pairwise
        (fun a b => decide (b.scannedAt ≤ a.scannedAt) = true) := by
      unfold getScansHandler
      exact List.sorted_mergeSort
        (fun a b c h1 h2 => by
          simp only [decide_eq_true_eq] at h1 h2 ⊢
          omega)
        (fun a b => by
          simp only [Bool.or_eq_true, decide_eq_true_eq]
          omega)
        (allScansOf repos)
    exact h.imp fun hab => by simpa using hab
